import Mathlib

/-!
# Verification of `src/rust/src/geometry/augmentations.rs`

Shallow embedding of the scene-augmentation core of the `av2` rust crate:
`sample_scene_reflection_x`, `sample_scene_reflection_y` and
`sample_random_object_scale`.

Modelling choices:
* `f32`/`f64` arithmetic is embedded over `ℚ` (exact arithmetic); the claims
  under study are structural (which entries are multiplied and by what), not
  about rounding.
* A `DataFrame` row is a structure holding the named columns the code touches
  plus a `rest` field for all untouched columns.
* Randomness is made explicit: the Bernoulli trial receives the underlying
  uniform draw `u ∈ [0,1)`, and the scale augmenter receives the sequence of
  uniform draws (one per cuboid, each in `[low, high]`) as a function
  `draws : Nat → ℚ`.
* Rust panics (`unwrap` on an error, out-of-bounds `ndarray` slicing,
  `Uniform::new_inclusive` with `low > high`, `Bernoulli::new` with
  `p ∉ [0,1]`) are modelled by returning `none`.
* Collaborator code living in the repository but outside the analysed source
  (`so3.rs`, `share.rs`, `polytope.rs`) is modelled from the spec where a
  definition is required; the membership mask produced by
  `compute_interior_points_mask` is passed in as an explicit argument since
  the claims quantify over it only through its boolean entries.
-/

namespace Augmentations

/-- A lidar point: the `x`, `y`, `z` coordinate columns plus all remaining
columns of the point-cloud frame, which the augmenters never touch. -/
structure Point where
  x : ℚ
  y : ℚ
  z : ℚ
  rest : List ℚ
deriving DecidableEq, Repr

/-- A cuboid row, in the column order of the cuboid frame used by
`cuboids.to_ndarray`: translation (columns 0..2), extent (columns 3..5),
orientation quaternion (columns 6..9), plus untouched remaining columns. -/
structure Cuboid where
  tx : ℚ
  ty : ℚ
  tz : ℚ
  length : ℚ
  width : ℚ
  height : ℚ
  qw : ℚ
  qx : ℚ
  qy : ℚ
  qz : ℚ
  rest : List ℚ
deriving DecidableEq, Repr

/-- A bare coordinate triple, the rows of the `ndarray` holding `x`, `y`,
`z` extracted by `ndarray_from_frame(&lidar, cols(["x", "y", "z"]))`. -/
structure V3 where
  x : ℚ
  y : ℚ
  z : ℚ
deriving DecidableEq, Repr

instance : Inhabited V3 := ⟨⟨0, 0, 0⟩⟩

/-! ## Reflection augmenters -/

/-- Sampling `Bernoulli::new(p)` with underlying uniform draw `u ∈ [0,1)`:
the trial is true exactly when `u < p`.  `p = 0` never fires, `p = 1`
always fires. -/
def bernoulliSample (p u : ℚ) : Bool := decide (u < p)

/-- The lidar transform of `sample_scene_reflection_x`: the lazy
`with_column(col("y").map(|y| -y))` negates the `y` column only. -/
def reflectPointX (pt : Point) : Point := { pt with y := -pt.y }

/-- The lidar transform of `sample_scene_reflection_y`: negates the `x`
column only. -/
def reflectPointY (pt : Point) : Point := { pt with x := -pt.x }

/-- Modelled from the spec: `reflect_translation_x` (module `so3`, outside
the analysed source) negates the designated cross-axis component only — for
the x-axis reflection, the `ty` component. -/
def reflectTranslationX (c : Cuboid) : Cuboid := { c with ty := -c.ty }

/-- Modelled from the spec: `reflect_translation_y` negates the `tx`
component only. -/
def reflectTranslationY (c : Cuboid) : Cuboid := { c with tx := -c.tx }

/-- Modelled from the spec: `reflect_orientation_x` (module `so3`, outside
the analysed source) returns a valid unit quaternion representing the
mirrored rotation; the exact formula is collaborator-owned, and only which
fields it may touch matters to the claims.  The mirror of a yaw rotation
negates the `qy` and `qz` components, which preserves the norm. -/
def reflectOrientationX (c : Cuboid) : Cuboid := { c with qy := -c.qy, qz := -c.qz }

/-- Modelled from the spec: `reflect_orientation_y`, the y-axis counterpart
of `reflectOrientationX`. -/
def reflectOrientationY (c : Cuboid) : Cuboid := { c with qx := -c.qx, qz := -c.qz }

/-- The cuboid transform of `sample_scene_reflection_x`: the translation
columns and the orientation columns are overwritten with their reflected
values (`concatenate![Axis(1), augmentation_translation, augmented_orientation]`
written back under the same column names); every other column is untouched. -/
def reflectCuboidX (c : Cuboid) : Cuboid := reflectOrientationX (reflectTranslationX c)

/-- The cuboid transform of `sample_scene_reflection_y`. -/
def reflectCuboidY (c : Cuboid) : Cuboid := reflectOrientationY (reflectTranslationY c)

/-- `sample_scene_reflection_x`: `Bernoulli::new(p).unwrap()` panics when
`p ∉ [0,1]` (`none`); otherwise one trial decides whether both structures
are reflected across the x-axis or returned unchanged. -/
def sampleSceneReflectionX (lidar : List Point) (cuboids : List Cuboid) (p u : ℚ) :
    Option (List Point × List Cuboid) :=
  if p < 0 ∨ 1 < p then none
  else if bernoulliSample p u then
    some (lidar.map reflectPointX, cuboids.map reflectCuboidX)
  else
    some (lidar, cuboids)

/-- `sample_scene_reflection_y`, structurally identical to the x-variant
with the other coordinate negated. -/
def sampleSceneReflectionY (lidar : List Point) (cuboids : List Cuboid) (p u : ℚ) :
    Option (List Point × List Cuboid) :=
  if p < 0 ∨ 1 < p then none
  else if bernoulliSample p u then
    some (lidar.map reflectPointY, cuboids.map reflectCuboidY)
  else
    some (lidar, cuboids)

/-! ## Random object scale augmenter -/

/-- The index list built from one mask row by
`m.iter().enumerate().filter_map(|(i, x)| ...)`: the positions of the
`true` entries, in increasing order, counted from `start`. -/
def trueIndicesFrom (start : Nat) : List Bool → List Nat
  | [] => []
  | b :: m =>
    if b then start :: trueIndicesFrom (start + 1) m else trueIndicesFrom (start + 1) m

/-- Positions of the `true` entries of a mask row, in increasing order. -/
def trueIndices (m : List Bool) : List Nat := trueIndicesFrom 0 m

/-- Scaling a coordinate triple about the global origin
(`interior_points *= scale_factor`). -/
def smul (s : ℚ) (v : V3) : V3 := ⟨s * v.x, s * v.y, s * v.z⟩

/-- `points.select(Axis(0), &indices)`: gather the rows at `indices`;
panics (`none`) when an index is out of bounds. -/
def selectRows (pts : List V3) : List Nat → Option (List V3)
  | [] => some []
  | i :: rest =>
    match pts[i]?, selectRows pts rest with
    | some v, some tail => some (v :: tail)
    | _, _ => none

/-- The write-back loop
`for index in indices { points.slice_mut(s![index, ..]).assign(&interior_points.slice(s![index, ..])) }`:
row `index` of the k-row `interior` array is written into row `index` of
`points`.  Slicing `interior` at a row `index ≥ k` is out of bounds and
panics (`none`). -/
def writeBack (interior : List V3) : List Nat → List V3 → Option (List V3)
  | [], pts => some pts
  | i :: rest, pts =>
    match interior[i]? with
    | some v => writeBack interior rest (pts.set i v)
    | none => none

/-- One iteration of the per-cuboid loop body acting on the point array:
build the interior index list from the mask row, gather and scale those
rows, then write them back row by row. -/
def scaleStep (s : ℚ) (m : List Bool) (pts : List V3) : Option (List V3) :=
  let indices := trueIndices m
  match selectRows pts indices with
  | none => none
  | some sel => writeBack (sel.map (smul s)) indices pts

/-- The extent update of one loop iteration:
`cuboids_ndarray.slice_mut(s![.., 3..6]).par_mapv_inplace(|x| x * scale_factor)`
multiplies columns 3..5 (length, width, height) of EVERY row by this
iteration's factor. -/
def scaleExtent (s : ℚ) (c : Cuboid) : Cuboid :=
  { c with length := s * c.length, width := s * c.width, height := s * c.height }

/-- The loop `for m in interior_points_mask.outer_iter()`: one iteration per
mask row, drawing `draws j` for the `j`-th row, updating the point array
via `scaleStep` and multiplying every cuboid's extent columns by the same
factor. -/
def scaleIter (draws : Nat → ℚ) :
    List (List Bool) → Nat → List V3 → List Cuboid → Option (List V3 × List Cuboid)
  | [], _, pts, cbs => some (pts, cbs)
  | m :: rest, j, pts, cbs =>
    match scaleStep (draws j) m pts with
    | none => none
    | some pts' => scaleIter draws rest (j + 1) pts' (cbs.map (scaleExtent (draws j)))

/-- The coordinate triple of a point row, as extracted by
`ndarray_from_frame(&lidar, cols(["x", "y", "z"]))`. -/
def pointCoords (pt : Point) : V3 := ⟨pt.x, pt.y, pt.z⟩

/-- Modelled from the spec: the column adapter write-back
(`ndarray_to_expr_vec` + `with_columns`, module `share`, outside the
analysed source) replaces only the named columns `x`, `y`, `z` with the
mutated array, preserving row count and every untouched column. -/
def writePoints (lidar : List Point) (pts : List V3) : List Point :=
  List.zipWith (fun pt v => { pt with x := v.x, y := v.y, z := v.z }) lidar pts

/-- `sample_random_object_scale`: `Uniform::new_inclusive(low, high)` panics
when `low > high` (`none`); otherwise the per-cuboid loop runs over the
membership mask (one row per cuboid, one entry per point, produced by
`compute_interior_points_mask` on the ORIGINAL points before the loop), and
the mutated arrays are written back over columns `x,y,z` and
`length_m,width_m,height_m`. -/
def sampleRandomObjectScale (lidar : List Point) (cuboids : List Cuboid)
    (low high : ℚ) (draws : Nat → ℚ) (mask : List (List Bool)) :
    Option (List Point × List Cuboid) :=
  if high < low then none
  else
    match scaleIter draws mask 0 (lidar.map pointCoords) cuboids with
    | none => none
    | some (pts, cbs) => some (writePoints lidar pts, cbs)

/-- The scale factor accumulated on point `i` by the loop starting at draw
index `j`: the factors of the mask rows whose entry `i` is set, composed in
table order (each step multiplies the then-current value). -/
def compositeScale (draws : Nat → ℚ) : List (List Bool) → Nat → Nat → ℚ
  | [], _, _ => 1
  | m :: rest, j, i =>
    compositeScale draws rest (j + 1) i * (if m.getD i false then draws j else 1)

/-- The factor accumulated on every cuboid's extent columns by the loop
starting at draw index `j`: the product of ALL drawn factors, composed in
table order. -/
def drawsProduct (draws : Nat → ℚ) : List (List Bool) → Nat → ℚ
  | [], _ => 1
  | _ :: rest, j => drawsProduct draws rest (j + 1) * draws j

/-- The cuboid rows (in increasing table order) whose mask entry for point
`i` is set — the cuboids containing point `i`. -/
def containingRows (mask : List (List Bool)) (i : Nat) : List Nat :=
  trueIndices (mask.map fun m => m.getD i false)

/-! ## Helper lemmas -/

theorem mem_trueIndicesFrom {i : Nat} :
    ∀ (m : List Bool) (start : Nat),
      i ∈ trueIndicesFrom start m ↔
        ∃ j, j < m.length ∧ m.getD j false = true ∧ i = start + j := by
  intro m
  induction m with
  | nil => intro start; simp [trueIndicesFrom]
  | cons b t ih =>
    intro start
    cases b with
    | true =>
      simp only [trueIndicesFrom, if_pos, List.mem_cons, ih (start + 1)]
      constructor
      · rintro (rfl | ⟨j, hj, hg, rfl⟩)
        · exact ⟨0, by simp, by simp, by omega⟩
        · exact ⟨j + 1, by simpa using hj, by simpa using hg, by omega⟩
      · rintro ⟨j, hj, hg, rfl⟩
        cases j with
        | zero => exact Or.inl (by omega)
        | succ j =>
          exact Or.inr ⟨j, by simpa using hj, by simpa using hg, by omega⟩
    | false =>
      simp only [trueIndicesFrom, if_neg, Bool.false_eq_true, not_false_eq_true,
        ih (start + 1)]
      constructor
      · rintro ⟨j, hj, hg, rfl⟩
        exact ⟨j + 1, by simpa using hj, by simpa using hg, by omega⟩
      · rintro ⟨j, hj, hg, rfl⟩
        cases j with
        | zero => simp at hg
        | succ j =>
          exact ⟨j, by simpa using hj, by simpa using hg, by omega⟩

theorem mem_trueIndices {i : Nat} {m : List Bool} :
    i ∈ trueIndices m ↔ i < m.length ∧ m.getD i false = true := by
  rw [trueIndices, mem_trueIndicesFrom]
  constructor
  · rintro ⟨j, hj, hg, rfl⟩
    simpa only [Nat.zero_add] using ⟨hj, hg⟩
  · rintro ⟨hi, hg⟩
    exact ⟨i, hi, hg, by omega⟩

theorem le_of_mem_trueIndicesFrom {i start : Nat} {m : List Bool}
    (h : i ∈ trueIndicesFrom start m) : start ≤ i := by
  obtain ⟨j, _, _, rfl⟩ := (mem_trueIndicesFrom m start).mp h
  omega

theorem trueIndicesFrom_pairwise :
    ∀ (m : List Bool) (start : Nat), List.Pairwise (· < ·) (trueIndicesFrom start m) := by
  intro m
  induction m with
  | nil => intro start; simp [trueIndicesFrom]
  | cons b t ih =>
    intro start
    cases b with
    | true =>
      simp only [trueIndicesFrom, if_pos]
      exact List.Pairwise.cons
        (fun x hx => lt_of_lt_of_le (Nat.lt_succ_self start) (le_of_mem_trueIndicesFrom hx))
        (ih (start + 1))
    | false =>
      simpa only [trueIndicesFrom, if_neg, Bool.false_eq_true, not_false_eq_true]
        using ih (start + 1)

theorem trueIndicesFrom_length_le :
    ∀ (m : List Bool) (start : Nat), (trueIndicesFrom start m).length ≤ m.length := by
  intro m
  induction m with
  | nil => intro start; simp [trueIndicesFrom]
  | cons b t ih =>
    intro start
    cases b with
    | true => simpa [trueIndicesFrom] using ih (start + 1)
    | false =>
      simp only [trueIndicesFrom, if_neg, Bool.false_eq_true, not_false_eq_true, List.length_cons]
      exact (ih (start + 1)).trans (Nat.le_succ _)

theorem eq_range'_of_pairwise :
    ∀ (l : List Nat) (s : Nat), List.Pairwise (· < ·) l →
      (∀ x ∈ l, s ≤ x ∧ x < s + l.length) → l = List.range' s l.length := by
  intro l
  induction l with
  | nil => intro s _ _; simp
  | cons a t ih =>
    intro s hp hb
    have hat : ∀ x ∈ t, a < x := (List.pairwise_cons.mp hp).1
    have hsa : s ≤ a := (hb a (List.mem_cons_self a t)).1
    have ht : t = List.range' (a + 1) t.length := by
      refine ih (a + 1) (List.pairwise_cons.mp hp).2 (fun x hx => ⟨hat x hx, ?_⟩)
      have := (hb x (List.mem_cons_of_mem a hx)).2
      simp only [List.length_cons] at this
      omega
    have has : a = s := by
      cases t with
      | nil =>
        have := (hb a (List.mem_cons_self a [])).2
        simp at this
        omega
      | cons b u =>
        have hmem : a + (u.length + 1) ∈ b :: u := by
          rw [ht]
          simp only [List.length_cons, List.mem_range'_1]
          omega
        have := (hb _ (List.mem_cons_of_mem a hmem)).2
        simp only [List.length_cons] at this
        omega
    subst has
    rw [List.length_cons, List.range'_succ, ← ht]

theorem trueIndices_eq_range {m : List Bool}
    (h : ∀ i ∈ trueIndices m, i < (trueIndices m).length) :
    trueIndices m = List.range (trueIndices m).length := by
  rw [List.range_eq_range']
  exact eq_range'_of_pairwise (trueIndices m) 0 (trueIndicesFrom_pairwise m 0)
    (fun x hx => ⟨Nat.zero_le x, by simpa using h x hx⟩)

theorem trueIndices_oob_iff_ne_range (m : List Bool) :
    (∃ i ∈ trueIndices m, (trueIndices m).length ≤ i) ↔
      trueIndices m ≠ List.range (trueIndices m).length := by
  constructor
  · rintro ⟨i, hi, hle⟩ heq
    rw [heq] at hi
    exact absurd (List.mem_range.mp hi) (by omega)
  · intro hne
    by_contra hc
    push_neg at hc
    exact hne (trueIndices_eq_range hc)

theorem writeBack_length :
    ∀ (idxs : List Nat) (interior pts pts' : List V3),
      writeBack interior idxs pts = some pts' → pts'.length = pts.length := by
  intro idxs
  induction idxs with
  | nil => intro interior pts pts' h; simp [writeBack] at h; rw [← h]
  | cons i rest ih =>
    intro interior pts pts' h
    cases hv : interior[i]? with
    | none => simp [writeBack, hv] at h
    | some v =>
      simp only [writeBack, hv] at h
      exact (ih interior _ _ h).trans (List.length_set pts i v)

theorem writeBack_eq_none_iff :
    ∀ (idxs : List Nat) (interior pts : List V3),
      writeBack interior idxs pts = none ↔ ∃ i ∈ idxs, interior.length ≤ i := by
  intro idxs
  induction idxs with
  | nil => intro interior pts; simp [writeBack]
  | cons i rest ih =>
    intro interior pts
    cases hv : interior[i]? with
    | none =>
      have := List.getElem?_eq_none_iff.mp hv
      simp only [writeBack, hv]
      exact iff_of_true trivial ⟨i, List.mem_cons_self i rest, this⟩
    | some v =>
      have hlt : i < interior.length := by
        rcases List.getElem?_eq_some_iff.mp hv with ⟨h, _⟩
        exact h
      simp only [writeBack, hv, ih interior (pts.set i v), List.mem_cons]
      constructor
      · rintro ⟨j, hj, hle⟩
        exact ⟨j, Or.inr hj, hle⟩
      · rintro ⟨j, hj | hj, hle⟩
        · omega
        · exact ⟨j, hj, hle⟩

theorem writeBack_range (interior : List V3) :
    ∀ (n s : Nat) (pts : List V3), s + n ≤ pts.length → s + n ≤ interior.length →
      ∃ pts', writeBack interior (List.range' s n) pts = some pts' ∧
        pts'.length = pts.length ∧
        ∀ i, pts'[i]? = if s ≤ i ∧ i < s + n then interior[i]? else pts[i]? := by
  intro n
  induction n with
  | zero =>
    intro s pts _ _
    refine ⟨pts, by simp [writeBack], rfl, fun i => ?_⟩
    rw [if_neg (by omega)]
  | succ n ih =>
    intro s pts hp hi
    have hs_lt : s < interior.length := by omega
    have hv : interior[s]? = some (interior.get ⟨s, hs_lt⟩) := List.getElem?_eq_getElem hs_lt
    obtain ⟨pts', h1, h2, h3⟩ :=
      ih (s + 1) (pts.set s (interior.get ⟨s, hs_lt⟩))
        (by rw [List.length_set]; omega) (by omega)
    refine ⟨pts', ?_, by rw [h2, List.length_set], fun i => ?_⟩
    · rw [List.range'_succ]
      simp only [writeBack, hv]
      exact h1
    · rw [h3 i]
      by_cases his : i = s
      · subst his
        rw [if_neg (by omega), if_pos (by omega),
          List.getElem?_set_self (by omega), hv]
      · rw [List.getElem?_set_ne (fun h => his h.symm)]
        have hcond : (s + 1 ≤ i ∧ i < s + 1 + n) ↔ (s ≤ i ∧ i < s + (n + 1)) := by omega
        rw [if_congr hcond rfl rfl]

theorem selectRows_eq_some :
    ∀ (idxs : List Nat) (pts : List V3), (∀ i ∈ idxs, i < pts.length) →
      selectRows pts idxs = some (idxs.map fun i => pts.getD i default) := by
  intro idxs
  induction idxs with
  | nil => intro pts _; simp [selectRows]
  | cons i rest ih =>
    intro pts hb
    have hi : i < pts.length := hb i (List.mem_cons_self i rest)
    have hv : pts[i]? = some (pts.getD i default) := by
      rw [List.getD_eq_getElem?_getD, List.getElem?_eq_getElem hi]
      rfl
    have htail := ih pts (fun j hj => hb j (List.mem_cons_of_mem i hj))
    unfold selectRows
    rw [hv, htail]
    rfl

theorem smul_one (v : V3) : smul 1 v = v := by
  simp [smul]

theorem smul_smul (a b : ℚ) (v : V3) : smul a (smul b v) = smul (a * b) v := by
  simp [smul, mul_assoc]

theorem scaleExtent_one (c : Cuboid) : scaleExtent 1 c = c := by
  simp [scaleExtent]

theorem scaleExtent_scaleExtent (a b : ℚ) (c : Cuboid) :
    scaleExtent a (scaleExtent b c) = scaleExtent (a * b) c := by
  simp [scaleExtent, mul_assoc]

theorem scaleStep_eq_none_iff (s : ℚ) (m : List Bool) (pts : List V3)
    (hm : m.length = pts.length) :
    scaleStep s m pts = none ↔ ∃ i ∈ trueIndices m, (trueIndices m).length ≤ i := by
  have hb : ∀ i ∈ trueIndices m, i < pts.length :=
    fun i hi => hm ▸ (mem_trueIndices.mp hi).1
  rw [scaleStep, selectRows_eq_some _ _ hb]
  simp only [writeBack_eq_none_iff, List.length_map]

theorem scaleStep_eq_some_getElem (s : ℚ) (m : List Bool) (pts pts' : List V3)
    (hm : m.length = pts.length) (h : scaleStep s m pts = some pts') :
    pts'.length = pts.length ∧
      ∀ i, pts'[i]? = (pts[i]?).map fun v => if m.getD i false then smul s v else v := by
  have hb : ∀ i ∈ trueIndices m, i < pts.length :=
    fun i hi => hm ▸ (mem_trueIndices.mp hi).1
  have hforall : ∀ i ∈ trueIndices m, i < (trueIndices m).length := by
    by_contra hc
    push_neg at hc
    obtain ⟨i, hi, hle⟩ := hc
    rw [(scaleStep_eq_none_iff s m pts hm).mpr ⟨i, hi, hle⟩] at h
    exact Option.noConfusion h
  have hrange := trueIndices_eq_range hforall
  have hk_le : (trueIndices m).length ≤ pts.length :=
    hm ▸ trueIndicesFrom_length_le m 0
  obtain ⟨q, hq, hqlen, hqget⟩ :=
    writeBack_range (((trueIndices m).map fun i => pts.getD i default).map (smul s))
      (trueIndices m).length 0 pts (by omega) (by simp)
  have hcomp : scaleStep s m pts = some q := by
    rw [scaleStep, selectRows_eq_some _ _ hb]
    show writeBack _ (trueIndices m) pts = some q
    calc writeBack (((trueIndices m).map fun i => pts.getD i default).map (smul s))
          (trueIndices m) pts
        = writeBack (((trueIndices m).map fun i => pts.getD i default).map (smul s))
            (List.range' 0 (trueIndices m).length) pts := by
          rw [← List.range_eq_range', ← hrange]
      _ = some q := hq
  rw [h] at hcomp
  obtain rfl : pts' = q := by injection hcomp
  refine ⟨hqlen, fun i => ?_⟩
  rw [hqget i]
  by_cases hik : i < (trueIndices m).length
  · rw [if_pos (by omega)]
    have hmem : i ∈ trueIndices m := by
      rw [hrange]
      exact List.mem_range.mpr hik
    have hgd : m.getD i false = true := (mem_trueIndices.mp hmem).2
    have hlt : i < pts.length := by omega
    have hpi : pts[i]? = some (pts.getD i default) := by
      rw [List.getD_eq_getElem?_getD, List.getElem?_eq_getElem hlt]
      rfl
    rw [List.getD_eq_getElem?_getD] at hgd
    rw [List.getElem?_map, List.getElem?_map, hrange, List.getElem?_range hik, hpi]
    simp [hgd]
  · rw [if_neg (by omega)]
    have hgd : m.getD i false = false := by
      by_cases him : i < m.length
      · by_contra hc
        have : m.getD i false = true := by
          cases hgg : m.getD i false
          · exact absurd hgg hc
          · rfl
        have := mem_trueIndices.mpr ⟨him, this⟩
        rw [hrange] at this
        exact absurd (List.mem_range.mp this) (by omega)
      · rw [List.getD_eq_getElem?_getD, List.getElem?_eq_none (by omega)]
        rfl
    rw [List.getD_eq_getElem?_getD] at hgd
    cases hpi : pts[i]? <;> simp [hgd]

theorem scaleIter_eq_some (draws : Nat → ℚ) :
    ∀ (mask : List (List Bool)) (j : Nat) (pts : List V3) (cbs : List Cuboid)
      (pts' : List V3) (cbs' : List Cuboid),
      (∀ m ∈ mask, m.length = pts.length) →
      scaleIter draws mask j pts cbs = some (pts', cbs') →
      pts'.length = pts.length ∧
        (∀ i, pts'[i]? = (pts[i]?).map fun v => smul (compositeScale draws mask j i) v) ∧
        cbs' = cbs.map (scaleExtent (drawsProduct draws mask j)) := by
  intro mask
  induction mask with
  | nil =>
    intro j pts cbs pts' cbs' _ h
    simp only [scaleIter, Option.some.injEq, Prod.mk.injEq] at h
    obtain ⟨rfl, rfl⟩ := h
    refine ⟨rfl, fun i => ?_, ?_⟩
    · cases hpi : pts[i]? <;> simp [compositeScale, smul_one]
    · have hid : scaleExtent (drawsProduct draws [] j) = fun c => c := by
        funext c
        simp [drawsProduct, scaleExtent_one]
      rw [hid, List.map_id']
  | cons m rest ih =>
    intro j pts cbs pts' cbs' hlen h
    simp only [scaleIter] at h
    cases hstep : scaleStep (draws j) m pts with
    | none => rw [hstep] at h; exact Option.noConfusion h
    | some pts1 =>
      rw [hstep] at h
      obtain ⟨hlen1, hget1⟩ :=
        scaleStep_eq_some_getElem (draws j) m pts pts1
          (hlen m (List.mem_cons_self m rest)) hstep
      have hlen' : ∀ m' ∈ rest, m'.length = pts1.length :=
        fun m' hm' => (hlen m' (List.mem_cons_of_mem m hm')).trans hlen1.symm
      obtain ⟨hL, hG, hC⟩ := ih (j + 1) pts1 (cbs.map (scaleExtent (draws j))) pts' cbs' hlen' h
      refine ⟨hL.trans hlen1, fun i => ?_, ?_⟩
      · rw [hG i, hget1 i]
        cases hpi : pts[i]? with
        | none => simp
        | some v =>
          simp only [Option.map_some']
          by_cases hc : m.getD i false = true
          · rw [List.getD_eq_getElem?_getD] at hc
            simp [hc, compositeScale, smul_smul]
          · simp only [Bool.not_eq_true] at hc
            rw [List.getD_eq_getElem?_getD] at hc
            simp [hc, compositeScale, smul_smul]
      · rw [hC, List.map_map]
        have : scaleExtent (drawsProduct draws rest (j + 1)) ∘ scaleExtent (draws j) =
            scaleExtent (drawsProduct draws (m :: rest) j) := by
          funext c
          simp only [Function.comp_apply, scaleExtent_scaleExtent, drawsProduct]
        rw [this]

theorem compositeScale_eq_one (draws : Nat → ℚ) {i : Nat} :
    ∀ (mask : List (List Bool)) (j : Nat), (∀ m ∈ mask, m.getD i false = false) →
      compositeScale draws mask j i = 1 := by
  intro mask
  induction mask with
  | nil => intro j _; rfl
  | cons m rest ih =>
    intro j h
    have hm : m.getD i false = false := h m (List.mem_cons_self m rest)
    rw [compositeScale, ih (j + 1) (fun m' hm' => h m' (List.mem_cons_of_mem m hm')), hm]
    simp

theorem compositeScale_eq_prod (draws : Nat → ℚ) (i : Nat) :
    ∀ (mask : List (List Bool)) (j : Nat),
      compositeScale draws mask j i =
        ((trueIndicesFrom j (mask.map fun m => m.getD i false)).map draws).prod := by
  intro mask
  induction mask with
  | nil => intro j; simp [compositeScale, trueIndicesFrom]
  | cons m rest ih =>
    intro j
    rw [compositeScale, ih (j + 1)]
    cases hm : m.getD i false with
    | true =>
      rw [List.getD_eq_getElem?_getD] at hm
      simp [trueIndicesFrom, hm, mul_comm]
    | false =>
      rw [List.getD_eq_getElem?_getD] at hm
      simp [trueIndicesFrom, hm]

theorem getD_map_getD (mask : List (List Bool)) (i j : Nat) (hj : j < mask.length) :
    (mask.map fun m => m.getD i false).getD j false = (mask.getD j []).getD i false := by
  rw [List.getD_eq_getElem?_getD, List.getElem?_map, List.getElem?_eq_getElem hj,
    List.getD_eq_getElem?_getD mask j, List.getElem?_eq_getElem hj]
  rfl

theorem mem_containingRows {mask : List (List Bool)} {i j : Nat} :
    j ∈ containingRows mask i ↔ j < mask.length ∧ (mask.getD j []).getD i false = true := by
  rw [containingRows, mem_trueIndices, List.length_map]
  constructor
  · rintro ⟨hj, hg⟩
    exact ⟨hj, (getD_map_getD mask i j hj) ▸ hg⟩
  · rintro ⟨hj, hg⟩
    exact ⟨hj, (getD_map_getD mask i j hj).symm ▸ hg⟩

theorem writePoints_getElem? (lidar : List Point) (pts : List V3) (i : Nat) :
    (writePoints lidar pts)[i]? =
      match lidar[i]?, pts[i]? with
      | some pt, some v => some { pt with x := v.x, y := v.y, z := v.z }
      | _, _ => none := by
  rw [writePoints, List.getElem?_zipWith]
  cases hl : lidar[i]? <;> cases hp : pts[i]? <;> rfl

theorem sampleRandomObjectScale_eq_some
    (lidar : List Point) (cuboids : List Cuboid) (low high : ℚ) (draws : Nat → ℚ)
    (mask : List (List Bool)) (out : List Point × List Cuboid)
    (hmask : ∀ m ∈ mask, m.length = lidar.length)
    (h : sampleRandomObjectScale lidar cuboids low high draws mask = some out) :
    out.1.length = lidar.length ∧ out.2.length = cuboids.length ∧
      (∀ i, (out.1)[i]? = (lidar[i]?).map fun pt : Point =>
        { pt with x := compositeScale draws mask 0 i * pt.x,
                  y := compositeScale draws mask 0 i * pt.y,
                  z := compositeScale draws mask 0 i * pt.z }) ∧
      out.2 = cuboids.map (scaleExtent (drawsProduct draws mask 0)) := by
  rw [sampleRandomObjectScale] at h
  by_cases hlh : high < low
  · rw [if_pos hlh] at h
    exact Option.noConfusion h
  rw [if_neg hlh] at h
  cases hit : scaleIter draws mask 0 (lidar.map pointCoords) cuboids with
  | none => rw [hit] at h; exact Option.noConfusion h
  | some pq =>
    obtain ⟨pts, cbs⟩ := pq
    rw [hit] at h
    have hout : some (writePoints lidar pts, cbs) = some out := h
    obtain rfl : out = (writePoints lidar pts, cbs) := (Option.some.inj hout).symm
    have hmask' : ∀ m ∈ mask, m.length = (lidar.map pointCoords).length := by
      simpa using hmask
    obtain ⟨hL, hG, hC⟩ := scaleIter_eq_some draws mask 0 (lidar.map pointCoords) cuboids
      pts cbs hmask' hit
    rw [List.length_map] at hL
    have hptsget : ∀ i, pts[i]? = (lidar[i]?).map fun pt =>
        smul (compositeScale draws mask 0 i) (pointCoords pt) := by
      intro i
      rw [hG i, List.getElem?_map, Option.map_map]
      rfl
    refine ⟨?_, ?_, fun i => ?_, hC⟩
    · show (writePoints lidar pts).length = lidar.length
      rw [writePoints, List.length_zipWith, hL, Nat.min_self]
    · rw [hC, List.length_map]
    · show (writePoints lidar pts)[i]? = _
      rw [writePoints_getElem?, hptsget i]
      cases hpi : lidar[i]? with
      | none => rfl
      | some pt => rfl

/-! ## Claim theorems -/

/-- Claim C1: in every `sample_random_object_scale` call that returns, each
cuboid iteration (in table order) multiplies the coordinates of exactly the
points marked interior by that cuboid's mask row by that cuboid's drawn
factor, about the global origin, and points interior to no cuboid leave the
call with their row unchanged. -/
theorem claim_C1_interior_point_scaling :
    (∀ (s : ℚ) (m : List Bool) (pts pts' : List V3), m.length = pts.length →
        scaleStep s m pts = some pts' →
        ∀ i, pts'[i]? = (pts[i]?).map fun v => if m.getD i false then smul s v else v) ∧
    (∀ (lidar : List Point) (cuboids : List Cuboid) (low high : ℚ) (draws : Nat → ℚ)
        (mask : List (List Bool)) (out : List Point × List Cuboid),
        (∀ m ∈ mask, m.length = lidar.length) →
        sampleRandomObjectScale lidar cuboids low high draws mask = some out →
        ∀ i, (∀ m ∈ mask, m.getD i false = false) → (out.1)[i]? = lidar[i]?) := by
  constructor
  · intro s m pts pts' hm h
    exact (scaleStep_eq_some_getElem s m pts pts' hm h).2
  · intro lidar cuboids low high draws mask out hmask h i hfalse
    obtain ⟨-, -, hget, -⟩ :=
      sampleRandomObjectScale_eq_some lidar cuboids low high draws mask out hmask h
    rw [hget i, compositeScale_eq_one draws mask 0 hfalse]
    cases hpi : lidar[i]? with
    | none => rfl
    | some pt => simp

theorem claim_C1_witness :
    ([true, false] : List Bool).length = ([⟨1, 1, 1⟩, ⟨5, 5, 5⟩] : List V3).length ∧
    scaleStep 2 [true, false] [⟨1, 1, 1⟩, ⟨5, 5, 5⟩] = some [⟨2, 2, 2⟩, ⟨5, 5, 5⟩] ∧
    ([⟨2, 2, 2⟩, ⟨5, 5, 5⟩] : List V3)[0]? =
      ((([⟨1, 1, 1⟩, ⟨5, 5, 5⟩] : List V3))[0]?).map
        (fun v => if ([true, false] : List Bool).getD 0 false then smul 2 v else v) :=
  ⟨by decide,
    by simp [scaleStep, trueIndices, trueIndicesFrom, selectRows, writeBack, smul],
    claim_C1_interior_point_scaling.1 2 [true, false] [⟨1, 1, 1⟩, ⟨5, 5, 5⟩]
      [⟨2, 2, 2⟩, ⟨5, 5, 5⟩] (by decide)
      (by simp [scaleStep, trueIndices, trueIndicesFrom, selectRows, writeBack, smul]) 0⟩

/-- Claim C2 (code bug): the claim says each cuboid's own extent — and only
that cuboid's — is multiplied once by its drawn factor, so with
`low == high == 2` every extent should be multiplied by exactly 2.  The code
instead slices ALL rows (`s![.., 3..6]`) on every loop iteration, so with two
cuboids each extent of 1 comes out as 4 = 2·2, not 2. -/
theorem claim_C2_extent_scaling_eval :
    sampleRandomObjectScale []
        [⟨0, 0, 0, 1, 1, 1, 1, 0, 0, 0, []⟩, ⟨0, 0, 0, 1, 1, 1, 1, 0, 0, 0, []⟩]
        2 2 (fun _ => 2) [[], []]
      = some ([], [⟨0, 0, 0, 4, 4, 4, 1, 0, 0, 0, []⟩, ⟨0, 0, 0, 4, 4, 4, 1, 0, 0, 0, []⟩]) ∧
    (4 : ℚ) ≠ 2 * 1 := by
  constructor
  · norm_num [sampleRandomObjectScale, scaleIter, scaleStep, trueIndices, trueIndicesFrom,
      selectRows, writeBack, smul, scaleExtent, pointCoords, writePoints]
  · norm_num

/-- Claim C3 (amended): only `low > high` makes `sample_random_object_scale`
fail (the `Uniform::new_inclusive` constructor panics); a non-positive `low`
with `low ≤ high` is not validated and a transformed pair is produced. -/
theorem claim_C3_low_gt_high_fails (lidar : List Point) (cuboids : List Cuboid)
    (low high : ℚ) (draws : Nat → ℚ) (mask : List (List Bool)) (h : high < low) :
    sampleRandomObjectScale lidar cuboids low high draws mask = none := by
  rw [sampleRandomObjectScale, if_pos h]

theorem claim_C3_witness :
    (1 : ℚ) < 2 ∧ sampleRandomObjectScale [] [] 2 1 (fun _ => 0) [] = none :=
  ⟨by decide, claim_C3_low_gt_high_fails [] [] 2 1 (fun _ => 0) [] (by decide)⟩

/-- Claim C3 counterexample: a call with `low = -1 ≤ 0` (and `low ≤ high`)
does NOT fail validation — it returns a transformed pair, contradicting the
claim that `low ≤ 0` surfaces an error. -/
theorem claim_C3_counterexample :
    (-1 : ℚ) ≤ 0 ∧ sampleRandomObjectScale [] [] (-1) 1 (fun _ => 0) [] = some ([], []) := by
  decide

/-- Claim C4: the write-back loop slices the k-row selected array at the
original point index, so the step panics exactly when some interior index
reaches `k`, i.e. exactly when the interior indices are not the prefix
`0..k-1` of the cloud. -/
theorem claim_C4_writeback_out_of_bounds (s : ℚ) (m : List Bool) (pts : List V3)
    (hm : m.length = pts.length) :
    (scaleStep s m pts = none ↔ ∃ i ∈ trueIndices m, (trueIndices m).length ≤ i) ∧
    ((∃ i ∈ trueIndices m, (trueIndices m).length ≤ i) ↔
      trueIndices m ≠ List.range (trueIndices m).length) :=
  ⟨scaleStep_eq_none_iff s m pts hm, trueIndices_oob_iff_ne_range m⟩

theorem claim_C4_witness :
    ([false, true] : List Bool).length = ([⟨1, 1, 1⟩, ⟨5, 5, 5⟩] : List V3).length ∧
    (scaleStep 2 [false, true] [⟨1, 1, 1⟩, ⟨5, 5, 5⟩] = none ↔
      ∃ i ∈ trueIndices [false, true], (trueIndices [false, true]).length ≤ i) :=
  ⟨by decide,
    (claim_C4_writeback_out_of_bounds 2 [false, true] [⟨1, 1, 1⟩, ⟨5, 5, 5⟩] (by decide)).1⟩

/-- Claim C5: when a point is interior to more than one cuboid, its final
coordinates are its input coordinates times the composition of the factors
of all cuboids containing it, applied sequentially in table order (each step
scales the then-current value), which equals their product. -/
theorem claim_C5_overlap_composition (lidar : List Point) (cuboids : List Cuboid)
    (low high : ℚ) (draws : Nat → ℚ) (mask : List (List Bool))
    (out : List Point × List Cuboid) (i : Nat)
    (hmask : ∀ m ∈ mask, m.length = lidar.length)
    (h : sampleRandomObjectScale lidar cuboids low high draws mask = some out)
    (_hmulti : 2 ≤ (containingRows mask i).length) :
    (out.1)[i]? = (lidar[i]?).map (fun pt : Point =>
      { pt with x := compositeScale draws mask 0 i * pt.x,
                y := compositeScale draws mask 0 i * pt.y,
                z := compositeScale draws mask 0 i * pt.z }) ∧
    compositeScale draws mask 0 i = ((containingRows mask i).map draws).prod ∧
    (∀ j, j ∈ containingRows mask i ↔
      j < mask.length ∧ (mask.getD j []).getD i false = true) := by
  refine ⟨(sampleRandomObjectScale_eq_some lidar cuboids low high draws mask out
    hmask h).2.2.1 i, ?_, fun j => mem_containingRows⟩
  rw [compositeScale_eq_prod draws i mask 0]
  rfl

theorem claim_C5_witness :
    (∀ m ∈ ([[true], [true]] : List (List Bool)),
        m.length = ([⟨1, 1, 1, []⟩] : List Point).length) ∧
    sampleRandomObjectScale [⟨1, 1, 1, []⟩]
        [⟨0, 0, 0, 1, 1, 1, 1, 0, 0, 0, []⟩, ⟨0, 0, 0, 1, 1, 1, 1, 0, 0, 0, []⟩]
        2 2 (fun _ => 2) [[true], [true]]
      = some ([⟨4, 4, 4, []⟩],
          [⟨0, 0, 0, 4, 4, 4, 1, 0, 0, 0, []⟩, ⟨0, 0, 0, 4, 4, 4, 1, 0, 0, 0, []⟩]) ∧
    2 ≤ (containingRows [[true], [true]] 0).length ∧
    (([⟨4, 4, 4, []⟩] : List Point))[0]? =
      ((([⟨1, 1, 1, []⟩] : List Point))[0]?).map (fun pt : Point =>
        { pt with x := compositeScale (fun _ => 2) [[true], [true]] 0 0 * pt.x,
                  y := compositeScale (fun _ => 2) [[true], [true]] 0 0 * pt.y,
                  z := compositeScale (fun _ => 2) [[true], [true]] 0 0 * pt.z }) :=
  ⟨by decide,
    by norm_num [sampleRandomObjectScale, scaleIter, scaleStep, trueIndices, trueIndicesFrom,
      selectRows, writeBack, smul, scaleExtent, pointCoords, writePoints],
    by decide,
    (claim_C5_overlap_composition [⟨1, 1, 1, []⟩]
      [⟨0, 0, 0, 1, 1, 1, 1, 0, 0, 0, []⟩, ⟨0, 0, 0, 1, 1, 1, 1, 0, 0, 0, []⟩]
      2 2 (fun _ => 2) [[true], [true]]
      ([⟨4, 4, 4, []⟩],
        [⟨0, 0, 0, 4, 4, 4, 1, 0, 0, 0, []⟩, ⟨0, 0, 0, 4, 4, 4, 1, 0, 0, 0, []⟩])
      0 (by decide)
      (by norm_num [sampleRandomObjectScale, scaleIter, scaleStep, trueIndices, trueIndicesFrom,
        selectRows, writeBack, smul, scaleExtent, pointCoords, writePoints])
      (by decide)).1⟩

/-- Claim C6: when the Bernoulli trial fires, the x-axis variant negates
every point's `y` coordinate and the y-axis variant negates every point's
`x` coordinate, leaving every other point column unchanged. -/
theorem claim_C6_reflection_negates_cross_axis (lidar : List Point) (cuboids : List Cuboid)
    (p u : ℚ) (hp : 0 ≤ p ∧ p ≤ 1) (ht : bernoulliSample p u = true) :
    sampleSceneReflectionX lidar cuboids p u
        = some (lidar.map reflectPointX, cuboids.map reflectCuboidX) ∧
    sampleSceneReflectionY lidar cuboids p u
        = some (lidar.map reflectPointY, cuboids.map reflectCuboidY) ∧
    (∀ pt : Point, (reflectPointX pt).y = -pt.y ∧ (reflectPointX pt).x = pt.x ∧
        (reflectPointX pt).z = pt.z ∧ (reflectPointX pt).rest = pt.rest) ∧
    (∀ pt : Point, (reflectPointY pt).x = -pt.x ∧ (reflectPointY pt).y = pt.y ∧
        (reflectPointY pt).z = pt.z ∧ (reflectPointY pt).rest = pt.rest) := by
  have hnot : ¬(p < 0 ∨ 1 < p) := by
    rintro (hc | hc) <;> linarith [hp.1, hp.2]
  refine ⟨?_, ?_, fun pt => ?_, fun pt => ?_⟩
  · rw [sampleSceneReflectionX, if_neg hnot, if_pos ht]
  · rw [sampleSceneReflectionY, if_neg hnot, if_pos ht]
  · simp [reflectPointX]
  · simp [reflectPointY]

theorem claim_C6_witness :
    ((0 : ℚ) ≤ 1 ∧ (1 : ℚ) ≤ 1) ∧ bernoulliSample 1 0 = true ∧
    sampleSceneReflectionX [⟨1, 2, 3, [4]⟩] [⟨1, 2, 3, 4, 5, 6, 7, 8, 9, 10, [11]⟩] 1 0
      = some (([⟨1, 2, 3, [4]⟩] : List Point).map reflectPointX,
          ([⟨1, 2, 3, 4, 5, 6, 7, 8, 9, 10, [11]⟩] : List Cuboid).map reflectCuboidX) :=
  ⟨by decide, by decide,
    (claim_C6_reflection_negates_cross_axis [⟨1, 2, 3, [4]⟩]
      [⟨1, 2, 3, 4, 5, 6, 7, 8, 9, 10, [11]⟩] 1 0 (by decide) (by decide)).1⟩

/-- Claim C7: neither reflection variant ever modifies any cuboid's
length/width/height extent columns, whether or not the trial fires. -/
theorem claim_C7_reflection_preserves_extents (lidar : List Point) (cuboids : List Cuboid)
    (p u : ℚ) (out : List Point × List Cuboid)
    (h : sampleSceneReflectionX lidar cuboids p u = some out ∨
         sampleSceneReflectionY lidar cuboids p u = some out) :
    ∀ j : Nat, (out.2[j]?).map (fun c : Cuboid => (c.length, c.width, c.height))
        = (cuboids[j]?).map fun c : Cuboid => (c.length, c.width, c.height) := by
  intro j
  rcases h with h | h
  · rw [sampleSceneReflectionX] at h
    by_cases hpv : p < 0 ∨ 1 < p
    · rw [if_pos hpv] at h
      exact Option.noConfusion h
    rw [if_neg hpv] at h
    by_cases ht : bernoulliSample p u = true
    · rw [if_pos ht] at h
      obtain rfl : out = (lidar.map reflectPointX, cuboids.map reflectCuboidX) :=
        (Option.some.inj h).symm
      show ((cuboids.map reflectCuboidX)[j]?).map _ = _
      rw [List.getElem?_map, Option.map_map]
      cases cuboids[j]? <;> rfl
    · rw [if_neg ht] at h
      obtain rfl : out = (lidar, cuboids) := (Option.some.inj h).symm
      rfl
  · rw [sampleSceneReflectionY] at h
    by_cases hpv : p < 0 ∨ 1 < p
    · rw [if_pos hpv] at h
      exact Option.noConfusion h
    rw [if_neg hpv] at h
    by_cases ht : bernoulliSample p u = true
    · rw [if_pos ht] at h
      obtain rfl : out = (lidar.map reflectPointY, cuboids.map reflectCuboidY) :=
        (Option.some.inj h).symm
      show ((cuboids.map reflectCuboidY)[j]?).map _ = _
      rw [List.getElem?_map, Option.map_map]
      cases cuboids[j]? <;> rfl
    · rw [if_neg ht] at h
      obtain rfl : out = (lidar, cuboids) := (Option.some.inj h).symm
      rfl

theorem claim_C7_witness :
    (sampleSceneReflectionX [] [⟨1, 2, 3, 4, 5, 6, 7, 8, 9, 10, []⟩] 1 0
        = some ([], ([⟨1, 2, 3, 4, 5, 6, 7, 8, 9, 10, []⟩] : List Cuboid).map reflectCuboidX) ∨
      sampleSceneReflectionY [] [⟨1, 2, 3, 4, 5, 6, 7, 8, 9, 10, []⟩] 1 0
        = some ([], ([⟨1, 2, 3, 4, 5, 6, 7, 8, 9, 10, []⟩] : List Cuboid).map reflectCuboidY)) ∧
    ∀ j : Nat, (((([⟨1, 2, 3, 4, 5, 6, 7, 8, 9, 10, []⟩] : List Cuboid).map reflectCuboidX))[j]?).map
          (fun c : Cuboid => (c.length, c.width, c.height))
        = (([⟨1, 2, 3, 4, 5, 6, 7, 8, 9, 10, []⟩] : List Cuboid)[j]?).map
            fun c : Cuboid => (c.length, c.width, c.height) :=
  ⟨Or.inl (by decide),
    claim_C7_reflection_preserves_extents [] [⟨1, 2, 3, 4, 5, 6, 7, 8, 9, 10, []⟩] 1 0
      ([], ([⟨1, 2, 3, 4, 5, 6, 7, 8, 9, 10, []⟩] : List Cuboid).map reflectCuboidX)
      (Or.inl (by decide))⟩

/-- Claim C8: with `p = 0` both reflection variants return the inputs
unchanged (value equality), and with `p = 1` both always apply the
reflection, for every underlying uniform draw `u ∈ [0,1)`. -/
theorem claim_C8_probability_boundary (lidar : List Point) (cuboids : List Cuboid)
    (u : ℚ) (hu : 0 ≤ u ∧ u < 1) :
    sampleSceneReflectionX lidar cuboids 0 u = some (lidar, cuboids) ∧
    sampleSceneReflectionY lidar cuboids 0 u = some (lidar, cuboids) ∧
    sampleSceneReflectionX lidar cuboids 1 u
        = some (lidar.map reflectPointX, cuboids.map reflectCuboidX) ∧
    sampleSceneReflectionY lidar cuboids 1 u
        = some (lidar.map reflectPointY, cuboids.map reflectCuboidY) := by
  have h0 : ¬(bernoulliSample 0 u = true) := by
    simp only [bernoulliSample, decide_eq_true_eq]
    linarith [hu.1]
  have h1 : bernoulliSample 1 u = true := by
    simp only [bernoulliSample, decide_eq_true_eq]
    exact hu.2
  have hv0 : ¬((0 : ℚ) < 0 ∨ 1 < (0 : ℚ)) := by norm_num
  have hv1 : ¬((1 : ℚ) < 0 ∨ 1 < (1 : ℚ)) := by norm_num
  refine ⟨?_, ?_, ?_, ?_⟩
  · rw [sampleSceneReflectionX, if_neg hv0, if_neg h0]
  · rw [sampleSceneReflectionY, if_neg hv0, if_neg h0]
  · rw [sampleSceneReflectionX, if_neg hv1, if_pos h1]
  · rw [sampleSceneReflectionY, if_neg hv1, if_pos h1]

theorem claim_C8_witness :
    ((0 : ℚ) ≤ 1/2 ∧ (1/2 : ℚ) < 1) ∧
    sampleSceneReflectionX [⟨1, 2, 3, []⟩] [] 0 (1/2) = some ([⟨1, 2, 3, []⟩], []) :=
  ⟨by norm_num,
    (claim_C8_probability_boundary [⟨1, 2, 3, []⟩] [] (1/2) (by norm_num)).1⟩

/-- Claim C9: every augmenter call that returns preserves the point-cloud
row count and the cuboid row count and schema, changing only the documented
columns — reflection: translation/orientation columns and the negated point
coordinate; scaling: point `x,y,z` and cuboid `length,width,height`. -/
theorem claim_C9_schema_preservation :
    (∀ (lidar : List Point) (cuboids : List Cuboid) (p u : ℚ)
        (out : List Point × List Cuboid),
      sampleSceneReflectionX lidar cuboids p u = some out →
      out.1.length = lidar.length ∧ out.2.length = cuboids.length ∧
        (∀ i : Nat, (out.1[i]?).map (fun pt : Point => (pt.x, pt.z, pt.rest))
            = (lidar[i]?).map fun pt : Point => (pt.x, pt.z, pt.rest)) ∧
        (∀ j : Nat, (out.2[j]?).map (fun c : Cuboid => (c.length, c.width, c.height, c.rest))
            = (cuboids[j]?).map fun c : Cuboid => (c.length, c.width, c.height, c.rest))) ∧
    (∀ (lidar : List Point) (cuboids : List Cuboid) (p u : ℚ)
        (out : List Point × List Cuboid),
      sampleSceneReflectionY lidar cuboids p u = some out →
      out.1.length = lidar.length ∧ out.2.length = cuboids.length ∧
        (∀ i : Nat, (out.1[i]?).map (fun pt : Point => (pt.y, pt.z, pt.rest))
            = (lidar[i]?).map fun pt : Point => (pt.y, pt.z, pt.rest)) ∧
        (∀ j : Nat, (out.2[j]?).map (fun c : Cuboid => (c.length, c.width, c.height, c.rest))
            = (cuboids[j]?).map fun c : Cuboid => (c.length, c.width, c.height, c.rest))) ∧
    (∀ (lidar : List Point) (cuboids : List Cuboid) (low high : ℚ) (draws : Nat → ℚ)
        (mask : List (List Bool)) (out : List Point × List Cuboid),
      (∀ m ∈ mask, m.length = lidar.length) →
      sampleRandomObjectScale lidar cuboids low high draws mask = some out →
      out.1.length = lidar.length ∧ out.2.length = cuboids.length ∧
        (∀ i : Nat, (out.1[i]?).map (fun pt : Point => pt.rest)
            = (lidar[i]?).map fun pt : Point => pt.rest) ∧
        (∀ j : Nat, (out.2[j]?).map
              (fun c : Cuboid => (c.tx, c.ty, c.tz, c.qw, c.qx, c.qy, c.qz, c.rest))
            = (cuboids[j]?).map
                fun c : Cuboid => (c.tx, c.ty, c.tz, c.qw, c.qx, c.qy, c.qz, c.rest))) := by
  refine ⟨?_, ?_, ?_⟩
  · intro lidar cuboids p u out h
    rw [sampleSceneReflectionX] at h
    by_cases hpv : p < 0 ∨ 1 < p
    · rw [if_pos hpv] at h
      exact Option.noConfusion h
    rw [if_neg hpv] at h
    by_cases ht : bernoulliSample p u = true
    · rw [if_pos ht] at h
      obtain rfl : out = (lidar.map reflectPointX, cuboids.map reflectCuboidX) :=
        (Option.some.inj h).symm
      refine ⟨List.length_map lidar reflectPointX, List.length_map cuboids reflectCuboidX,
        fun i => ?_, fun j => ?_⟩
      · show ((lidar.map reflectPointX)[i]?).map _ = _
        rw [List.getElem?_map, Option.map_map]
        cases lidar[i]? <;> rfl
      · show ((cuboids.map reflectCuboidX)[j]?).map _ = _
        rw [List.getElem?_map, Option.map_map]
        cases cuboids[j]? <;> rfl
    · rw [if_neg ht] at h
      obtain rfl : out = (lidar, cuboids) := (Option.some.inj h).symm
      exact ⟨rfl, rfl, fun i => rfl, fun j => rfl⟩
  · intro lidar cuboids p u out h
    rw [sampleSceneReflectionY] at h
    by_cases hpv : p < 0 ∨ 1 < p
    · rw [if_pos hpv] at h
      exact Option.noConfusion h
    rw [if_neg hpv] at h
    by_cases ht : bernoulliSample p u = true
    · rw [if_pos ht] at h
      obtain rfl : out = (lidar.map reflectPointY, cuboids.map reflectCuboidY) :=
        (Option.some.inj h).symm
      refine ⟨List.length_map lidar reflectPointY, List.length_map cuboids reflectCuboidY,
        fun i => ?_, fun j => ?_⟩
      · show ((lidar.map reflectPointY)[i]?).map _ = _
        rw [List.getElem?_map, Option.map_map]
        cases lidar[i]? <;> rfl
      · show ((cuboids.map reflectCuboidY)[j]?).map _ = _
        rw [List.getElem?_map, Option.map_map]
        cases cuboids[j]? <;> rfl
    · rw [if_neg ht] at h
      obtain rfl : out = (lidar, cuboids) := (Option.some.inj h).symm
      exact ⟨rfl, rfl, fun i => rfl, fun j => rfl⟩
  · intro lidar cuboids low high draws mask out hmask h
    obtain ⟨h1, h2, hget, hcbs⟩ :=
      sampleRandomObjectScale_eq_some lidar cuboids low high draws mask out hmask h
    refine ⟨h1, h2, fun i => ?_, fun j => ?_⟩
    · rw [hget i, Option.map_map]
      cases lidar[i]? <;> rfl
    · rw [hcbs]
      show ((cuboids.map (scaleExtent (drawsProduct draws mask 0)))[j]?).map _ = _
      rw [List.getElem?_map, Option.map_map]
      cases cuboids[j]? <;> rfl

theorem claim_C9_witness :
    sampleSceneReflectionX [⟨1, 2, 3, [9]⟩] [⟨1, 2, 3, 4, 5, 6, 7, 8, 9, 10, [11]⟩] 1 0
      = some (([⟨1, 2, 3, [9]⟩] : List Point).map reflectPointX,
          ([⟨1, 2, 3, 4, 5, 6, 7, 8, 9, 10, [11]⟩] : List Cuboid).map reflectCuboidX) ∧
    (([⟨1, 2, 3, [9]⟩] : List Point).map reflectPointX).length
      = ([⟨1, 2, 3, [9]⟩] : List Point).length :=
  ⟨by decide,
    (claim_C9_schema_preservation.1 [⟨1, 2, 3, [9]⟩] [⟨1, 2, 3, 4, 5, 6, 7, 8, 9, 10, [11]⟩]
      1 0 (([⟨1, 2, 3, [9]⟩] : List Point).map reflectPointX,
        ([⟨1, 2, 3, 4, 5, 6, 7, 8, 9, 10, [11]⟩] : List Cuboid).map reflectCuboidX)
      (by decide)).1⟩

/-- Claim C10: with 0 points and 0 cuboids and valid parameters, both
reflection variants and the scale augmenter succeed and return empty
structures. -/
theorem claim_C10_empty_inputs (p u low high : ℚ) (draws : Nat → ℚ)
    (hp : 0 ≤ p ∧ p ≤ 1) (hrange : 0 < low ∧ low ≤ high) :
    sampleSceneReflectionX [] [] p u = some ([], []) ∧
    sampleSceneReflectionY [] [] p u = some ([], []) ∧
    sampleRandomObjectScale [] [] low high draws [] = some ([], []) := by
  have hnot : ¬(p < 0 ∨ 1 < p) := by
    rintro (hc | hc) <;> linarith [hp.1, hp.2]
  refine ⟨?_, ?_, ?_⟩
  · rw [sampleSceneReflectionX, if_neg hnot]
    by_cases ht : bernoulliSample p u = true
    · rw [if_pos ht]
      rfl
    · rw [if_neg ht]
  · rw [sampleSceneReflectionY, if_neg hnot]
    by_cases ht : bernoulliSample p u = true
    · rw [if_pos ht]
      rfl
    · rw [if_neg ht]
  · rw [sampleRandomObjectScale, if_neg (by linarith [hrange.2] : ¬high < low)]
    rfl

theorem claim_C10_witness :
    ((0 : ℚ) ≤ 1/2 ∧ (1/2 : ℚ) ≤ 1) ∧ ((0 : ℚ) < 1 ∧ (1 : ℚ) ≤ 2) ∧
    sampleSceneReflectionX [] [] (1/2) 0 = some ([], []) :=
  ⟨by norm_num, by norm_num,
    (claim_C10_empty_inputs (1/2) 0 1 2 (fun _ => 1) (by norm_num) (by norm_num)).1⟩

end Augmentations
